import Mathlib

/-!
Verification of the playback clock, the telemetry interpolation pass and the
offset-curve track geometry builder of the Formula1-AR repository.

Numeric model: the TypeScript source computes with IEEE doubles; this
development models the same arithmetic exactly over `ℚ`.  Square roots
(`THREE.Vector3.length`, `normalize`, `distanceTo`) are modelled by
`ratSqrt`, which agrees with the real square root on perfect squares (every
radicand reached in the theorems below is a perfect square).  Threshold
comparisons of the form `v.length() < eps` with `eps > 0` are embedded as the
equivalent squared comparison `v.lengthSq < eps * eps` (the real square root
is monotone), so every branch decision agrees with the source on every
rational input.  `isNaN`/`isFinite` checks hold of every exact rational and
are noted where they occur in the source.
-/

namespace F1

/-- Exact square root on `ℚ`: `Nat.sqrt` of the numerator and denominator of
the reduced fraction.  For a perfect square `a * a` with `0 ≤ a` it returns
`a` exactly (`ratSqrt_mul_self` below), which covers every radicand reached
in this development. -/
def ratSqrt (q : ℚ) : ℚ :=
  (Nat.sqrt q.num.toNat : ℚ) / (Nat.sqrt q.den : ℚ)

/-- `THREE.Vector3`, restricted to the operations the track builder uses. -/
structure Vector3 where
  x : ℚ
  y : ℚ
  z : ℚ
deriving DecidableEq, Repr

namespace Vector3

/-- `new THREE.Vector3().subVectors(a, b)` -/
def subVectors (a b : Vector3) : Vector3 :=
  ⟨a.x - b.x, a.y - b.y, a.z - b.z⟩

/-- `new THREE.Vector3().addVectors(a, b)` -/
def addVectors (a b : Vector3) : Vector3 :=
  ⟨a.x + b.x, a.y + b.y, a.z + b.z⟩

/-- `v.addScaledVector(w, s)` (always applied to a fresh copy in the source). -/
def addScaledVector (v w : Vector3) (s : ℚ) : Vector3 :=
  ⟨v.x + w.x * s, v.y + w.y * s, v.z + w.z * s⟩

/-- `v.lengthSq()` -/
def lengthSq (v : Vector3) : ℚ := v.x * v.x + v.y * v.y + v.z * v.z

/-- `v.length()`, with `ratSqrt` standing in for `Math.sqrt`. -/
def length (v : Vector3) : ℚ := ratSqrt v.lengthSq

/-- `v.normalize()`: THREE.js divides by `this.length() || 1`, so a zero
vector is left unchanged rather than producing NaN. -/
def normalize (v : Vector3) : Vector3 :=
  let l := v.length
  let d := if l = 0 then 1 else l
  ⟨v.x / d, v.y / d, v.z / d⟩

/-- Squared `a.distanceTo(b)`.  The only comparison of `distanceTo` in the
source is against the positive constant `0.1` and is embedded squared. -/
def distanceToSq (a b : Vector3) : ℚ := (subVectors a b).lengthSq

end Vector3

/-- JavaScript array indexing with a possibly negative index: `arr[i]` is
`undefined` (`none`) for `i < 0` and for `i ≥ length`. -/
def jsIndex {α : Type} (l : List α) (i : Int) : Option α :=
  if i < 0 then none else l[i.toNat]?

/-- One entry of the `telemetry` array consumed by `Cars`
(`src/frontend/src/components/Cars.tsx`).  Positions are `[x, y, z]`
triples; the numeric-or-boolean `brake` channel is modelled by its
truthiness, which is all the source ever uses of it. -/
structure CarTelemetry where
  positions_normalized : List (ℚ × ℚ × ℚ)
  times : List ℚ
  throttle : List ℚ
  brake : List Bool
  speed : List ℚ
deriving DecidableEq, Repr

/-- Observable result of one per-car execution of the `useFrame` sampling
body in `Cars.tsx`. -/
inductive SampleOutcome where
  /-- the callback dereferences `undefined` and throws a TypeError -/
  | crash : SampleOutcome
  /-- the callback returns without writing the car position -/
  | noUpdate : SampleOutcome
  /-- the `(x, y, z)` written to `carRef.position`, and — when the
  interpolation path is reached — the throttle/brake pair used to recolour
  the car (`none` when the callback returned before the colour code) -/
  | update : (ℚ × ℚ × ℚ) → Option (ℚ × Bool) → SampleOutcome
deriving DecidableEq, Repr

/-- `THREE.MathUtils.lerp(x, y, t) = x + (y - x) * t` -/
def lerp (a b t : ℚ) : ℚ := a + (b - a) * t

/-- `Math.max(0, Math.min(1, x))` -/
def clamp01 (x : ℚ) : ℚ := max 0 (min 1 x)

/-- The interpolation tail of the sampling body (`Cars.tsx` lines 113-167):
reads `times`/`positions_normalized` at `timeIndex - 1` and `timeIndex`,
returns without updating when either time or position is `undefined`,
otherwise writes the lerped ground-plane position with the vertical
component fixed at `0.01` and recolours from `throttle[timeIndex] || 0`
and `brake[timeIndex] || false`. -/
def interpolateAt (car : CarTelemetry) (currentTime : ℚ) (timeIndex : Int) :
    SampleOutcome :=
  match jsIndex car.times (timeIndex - 1), jsIndex car.times timeIndex with
  | some prevTime, some nextTime =>
    let t := clamp01 ((currentTime - prevTime) / (nextTime - prevTime))
    match jsIndex car.positions_normalized (timeIndex - 1),
          jsIndex car.positions_normalized timeIndex with
    | some prevPos, some nextPos =>
      let newX := lerp prevPos.1 nextPos.1 t
      let newZ := lerp prevPos.2.2 nextPos.2.2 t
      let throttleVal := (jsIndex car.throttle timeIndex).getD 0
      let brakeVal := (jsIndex car.brake timeIndex).getD false
      .update (newX, 1 / 100, newZ) (some (throttleVal, brakeVal))
    | _, _ => .noUpdate
  | _, _ => .noUpdate

/-- The per-car sampling body of the `useFrame` callback in `Cars.tsx`
(lines 88-167) for a playing clock; the paused early-returns are governed
by the clock state, which is modelled separately by the clock operations.
`times.findIndex((t) => t >= currentTime)` locates the first sample time
not less than the query; `-1` (`none`) takes the clamp-to-end branch, which
indexes `positions_normalized[times.length - 1]` without a defined-ness
check. -/
def sample (car : CarTelemetry) (currentTime : ℚ) : SampleOutcome :=
  match car.times.findIdx? (fun x => currentTime ≤ x) with
  | none =>
    match jsIndex car.positions_normalized ((car.times.length : Int) - 1) with
    | none => .crash
    | some lastPos => .update (lastPos.1, 1 / 100, lastPos.2.2) none
  | some idx =>
    if idx = 0 then
      match car.times[0]? with
      | some t0 =>
        if currentTime ≤ t0 then
          match car.positions_normalized[0]? with
          | none => .crash
          | some firstPos => .update (firstPos.1, 1 / 100, firstPos.2.2) none
        else interpolateAt car currentTime 1
      | none => interpolateAt car currentTime 1
    else interpolateAt car currentTime (idx : Int)

/-- Playback state owned by `RaceControlsProvider`
(`RaceControlsContext.tsx`). -/
structure PlaybackState where
  currentTime : ℚ
  isPlaying : Bool
  playbackSpeed : ℚ
deriving DecidableEq, Repr

/-- `advanceTime(delta)`: no-op unless playing, otherwise adds
`delta * playbackSpeed` to the current time. -/
def advanceTime (delta : ℚ) (s : PlaybackState) : PlaybackState :=
  if s.isPlaying then
    { s with currentTime := s.currentTime + delta * s.playbackSpeed }
  else s

/-- `setPlaybackSpeed` is the raw `useState` setter exposed by the provider:
it stores its argument verbatim. -/
def setPlaybackSpeed (speed : ℚ) (s : PlaybackState) : PlaybackState :=
  { s with playbackSpeed := speed }

/-- `togglePlay`. -/
def togglePlay (s : PlaybackState) : PlaybackState :=
  { s with isPlaying := !s.isPlaying }

/-- `reset`. -/
def reset (s : PlaybackState) : PlaybackState :=
  { s with isPlaying := false, currentTime := 0 }

/-- `setTime`. -/
def setTime (time : ℚ) (s : PlaybackState) : PlaybackState :=
  { s with currentTime := time }

/-- Initial provider state: `useState(false)`, `useState(1.0)`, `useRef(0)`. -/
def initialState : PlaybackState :=
  { currentTime := 0, isPlaying := false, playbackSpeed := 1 }

/-- The `speedUp` button action of `ARControls`:
`setPlaybackSpeed(Math.min(5, playbackSpeed + 0.5))`. -/
def speedUpAction (s : PlaybackState) : PlaybackState :=
  setPlaybackSpeed (min 5 (s.playbackSpeed + 1 / 2)) s

/-- The `speedDown` button action of `ARControls`:
`setPlaybackSpeed(Math.max(0.5, playbackSpeed - 0.5))`. -/
def speedDownAction (s : PlaybackState) : PlaybackState :=
  setPlaybackSpeed (max (1 / 2) (s.playbackSpeed - 1 / 2)) s

/-- A press of one of the two speed buttons. -/
inductive SpeedAction where
  | up : SpeedAction
  | down : SpeedAction
deriving DecidableEq, Repr

/-- Apply one speed-button press to the playback state. -/
def applySpeedAction (s : PlaybackState) : SpeedAction → PlaybackState
  | .up => speedUpAction s
  | .down => speedDownAction s

/-- Apply a sequence of speed-button presses. -/
def applySpeedActions (s : PlaybackState) (acts : List SpeedAction) :
    PlaybackState :=
  acts.foldl applySpeedAction s

/-- A time series has (at least one) adjacent duplicate timestamp. -/
def hasDuplicateTimes (ts : List ℚ) : Prop :=
  ∃ j, j + 1 < ts.length ∧ ts[j]? = ts[j + 1]?

/-- Squared form of the `0.0001` near-zero length threshold used throughout
the boundary loop of `Track` (`src/unnamed/part_001`). -/
def epsSq : ℚ := 1 / 100000000

/-- `const trackWidth = 0.08` (`Track`, line 41): the track width is a fixed
constant, not a parameter. -/
def trackWidth : ℚ := 8 / 100

/-- Input-point validation of `Track` (lines 19-30): the entry must be an
array of length ≥ 3; `x` and `z` are destructured from indexes 0 and 2 and
`y` is flattened to 0.  The `typeof`/`isNaN`/`isFinite` checks hold of every
exact rational and can only reject here through the shape check. -/
def validatePoint (p : List ℚ) : Option Vector3 :=
  if 3 ≤ p.length then some ⟨(p[0]?).getD 0, 0, (p[2]?).getD 0⟩ else none

/-- Valid centreline points (`Track` lines 11-35): empty when the raw path
has fewer than 2 entries, or when fewer than 2 valid points survive. -/
def validPoints (trackPath : List (List ℚ)) : List Vector3 :=
  if trackPath.length < 2 then []
  else
    let points := trackPath.filterMap validatePoint
    if points.length < 2 then [] else points

/-- One iteration of the boundary-building loop of `Track` (lines 47-128).
`accInner`/`accOuter` are the arrays built so far, most recent first (the
source reads `innerPoints[innerPoints.length - 1]` and the matching outer
entry in the duplicate-point branch).  The final `isNaN` post-check (lines
118-123) cannot fire over exact rationals: both candidate points are plain
rational arithmetic on the inputs, so the `else` branch that pushes them is
always the one taken. -/
def boundaryStep (pts : List Vector3) (i : Nat)
    (accInner accOuter : List Vector3) : Vector3 × Vector3 :=
  let n := pts.length
  let curr := pts.getD i ⟨0, 0, 0⟩
  let prev := pts.getD (if 0 < i then i - 1 else n - 1) ⟨0, 0, 0⟩
  let next := pts.getD (if i < n - 1 then i + 1 else 0) ⟨0, 0, 0⟩
  let dir1 := Vector3.subVectors curr prev
  let dir2 := Vector3.subVectors next curr
  if dir1.lengthSq < epsSq ∨ dir2.lengthSq < epsSq then
    match accInner, accOuter with
    | lastInner :: _, lastOuter :: _ =>
      let prevNormal := (Vector3.subVectors lastOuter lastInner).normalize
      (curr.addScaledVector prevNormal (-(trackWidth / 2)),
       curr.addScaledVector prevNormal (trackWidth / 2))
    | _, _ =>
      let defaultNormal : Vector3 := ⟨1, 0, 0⟩
      (curr.addScaledVector defaultNormal (-(trackWidth / 2)),
       curr.addScaledVector defaultNormal (trackWidth / 2))
  else
    let d1 := dir1.normalize
    let d2 := dir2.normalize
    let avgDir := Vector3.addVectors d1 d2
    if avgDir.lengthSq < epsSq then
      let normal0 : Vector3 := ⟨-d1.z, 0, d1.x⟩
      let normal :=
        if normal0.lengthSq < epsSq then (⟨1, 0, 0⟩ : Vector3)
        else normal0.normalize
      (curr.addScaledVector normal (-(trackWidth / 2)),
       curr.addScaledVector normal (trackWidth / 2))
    else
      let avgn := avgDir.normalize
      let normal0 : Vector3 := ⟨-avgn.z, 0, avgn.x⟩
      let normal :=
        if normal0.lengthSq < epsSq then (⟨1, 0, 0⟩ : Vector3)
        else normal0.normalize
      (curr.addScaledVector normal (-(trackWidth / 2)),
       curr.addScaledVector normal (trackWidth / 2))

/-- The degenerate-direction test of the boundary loop at index `i`
(source line 60, with both `length() < 0.0001` comparisons squared). -/
def dupAt (pts : List Vector3) (i : Nat) : Prop :=
  (Vector3.subVectors (pts.getD i ⟨0, 0, 0⟩)
      (pts.getD (if 0 < i then i - 1 else pts.length - 1) ⟨0, 0, 0⟩)).lengthSq
    < epsSq ∨
  (Vector3.subVectors
      (pts.getD (if i < pts.length - 1 then i + 1 else 0) ⟨0, 0, 0⟩)
      (pts.getD i ⟨0, 0, 0⟩)).lengthSq < epsSq

/-- Accumulator-free form of one loop iteration: the only loop state the
duplicate-point branch reads is the most recent (inner, outer) pair, which
is what the accumulators' heads hold (`boundaryStep_eq_pp` below proves the
equivalence). -/
def boundaryStepPP (pts : List Vector3) (i : Nat)
    (prevPair : Option (Vector3 × Vector3)) : Vector3 × Vector3 :=
  let n := pts.length
  let curr := pts.getD i ⟨0, 0, 0⟩
  let prev := pts.getD (if 0 < i then i - 1 else n - 1) ⟨0, 0, 0⟩
  let next := pts.getD (if i < n - 1 then i + 1 else 0) ⟨0, 0, 0⟩
  let dir1 := Vector3.subVectors curr prev
  let dir2 := Vector3.subVectors next curr
  if dir1.lengthSq < epsSq ∨ dir2.lengthSq < epsSq then
    match prevPair with
    | some (lastInner, lastOuter) =>
      let prevNormal := (Vector3.subVectors lastOuter lastInner).normalize
      (curr.addScaledVector prevNormal (-(trackWidth / 2)),
       curr.addScaledVector prevNormal (trackWidth / 2))
    | none =>
      let defaultNormal : Vector3 := ⟨1, 0, 0⟩
      (curr.addScaledVector defaultNormal (-(trackWidth / 2)),
       curr.addScaledVector defaultNormal (trackWidth / 2))
  else
    let d1 := dir1.normalize
    let d2 := dir2.normalize
    let avgDir := Vector3.addVectors d1 d2
    if avgDir.lengthSq < epsSq then
      let normal0 : Vector3 := ⟨-d1.z, 0, d1.x⟩
      let normal :=
        if normal0.lengthSq < epsSq then (⟨1, 0, 0⟩ : Vector3)
        else normal0.normalize
      (curr.addScaledVector normal (-(trackWidth / 2)),
       curr.addScaledVector normal (trackWidth / 2))
    else
      let avgn := avgDir.normalize
      let normal0 : Vector3 := ⟨-avgn.z, 0, avgn.x⟩
      let normal :=
        if normal0.lengthSq < epsSq then (⟨1, 0, 0⟩ : Vector3)
        else normal0.normalize
      (curr.addScaledVector normal (-(trackWidth / 2)),
       curr.addScaledVector normal (trackWidth / 2))

/-- The boundary loop as an in-order list of (inner, outer) pairs, threading
only the previous pair as state. -/
def buildPairs (pts : List Vector3) :
    List Nat → Option (Vector3 × Vector3) → List (Vector3 × Vector3)
  | [], _ => []
  | i :: rest, pp =>
    let q := boundaryStepPP pts i pp
    q :: buildPairs pts rest (some q)

/-- The most recent (inner, outer) pair held by the two accumulators. -/
def headPair (accInner accOuter : List Vector3) : Option (Vector3 × Vector3) :=
  match accInner, accOuter with
  | a :: _, b :: _ => some (a, b)
  | _, _ => none

/-- The boundary-building loop: one inner and one outer point pushed per
index (arrays carried most-recent-first, reversed on exit). -/
def boundaryGo (pts : List Vector3) :
    List Nat → List Vector3 → List Vector3 → List Vector3 × List Vector3
  | [], accInner, accOuter => (accInner.reverse, accOuter.reverse)
  | i :: rest, accInner, accOuter =>
    let q := boundaryStep pts i accInner accOuter
    boundaryGo pts rest (q.1 :: accInner) (q.2 :: accOuter)

/-- Inner and outer boundary arrays for the valid centreline points. -/
def trackBoundaries (pts : List Vector3) : List Vector3 × List Vector3 :=
  boundaryGo pts (List.range pts.length) [] []

/-- Mesh buffers produced by `asphaltGeometry`. -/
structure Mesh where
  vertices : List ℚ
  indices : List Nat
deriving DecidableEq, Repr

/-- Vertex construction (`Track` lines 186-190): flattened
`[inner0, outer0, inner1, outer1, …]`, indexing `validOuterPoints[i]` for
each inner index `i`; `none` models the TypeError that dereferencing a
missing outer point would raise. -/
def interleaveVerts : List Vector3 → List Vector3 → Option (List ℚ)
  | [], _ => some []
  | _ :: _, [] => none
  | a :: as, b :: bs =>
    (interleaveVerts as bs).map
      (fun r => a.x :: a.y :: a.z :: b.x :: b.y :: b.z :: r)

/-- Face indices for the open strip (lines 193-199): for each consecutive
pair of boundary indices, the two triangles
`(2i, 2i+1, 2i+2)` and `(2i+1, 2i+3, 2i+2)`. -/
def segIndices (n : Nat) : List Nat :=
  (List.range (n - 1)).flatMap
    (fun i => [2 * i, 2 * i + 1, 2 * i + 2, 2 * i + 1, 2 * i + 3, 2 * i + 2])

/-- Loop-closing stitch (lines 201-209): compares the first against the last
*inner boundary* point; `distanceTo < 0.1` is embedded squared.  The source
runs this under the `length ≥ 2` guard, so both lookups are defined there;
the defensive `[]` for the unreachable empty case only keeps the model
total. -/
def closeIndices (inner : List Vector3) : List Nat :=
  match inner.head?, inner.getLast? with
  | some first, some last =>
    if Vector3.distanceToSq first last < 1 / 100 then
      [(inner.length - 1) * 2, (inner.length - 1) * 2 + 1, 0,
       (inner.length - 1) * 2 + 1, 1, 0]
    else []
  | _, _ => []

/-- `asphaltGeometry` (lines 178-215): `none` when fewer than 2 boundary
points survive (the source returns `null`). -/
def asphaltMesh (inner outer : List Vector3) : Option Mesh :=
  if inner.length < 2 ∨ outer.length < 2 then none
  else
    (interleaveVerts inner outer).map
      (fun vs => ⟨vs, segIndices inner.length ++ closeIndices inner⟩)

/-- The spec's interpolation example: times `[0,1,2]`, positions
`[[0,0,0],[10,0,0],[20,0,0]]` (discrete channels all zero). -/
def exampleCar : CarTelemetry :=
  { positions_normalized := [(0, 0, 0), (10, 0, 0), (20, 0, 0)]
    times := [0, 1, 2]
    throttle := [0, 0, 0]
    brake := [false, false, false]
    speed := [0, 0, 0] }

/-- A two-sample car whose positions have nonzero vertical components. -/
def liftedCar : CarTelemetry :=
  { positions_normalized := [(2, 5, 7), (3, 6, 8)]
    times := [0, 1]
    throttle := [10, 20]
    brake := [true, false]
    speed := [100, 200] }

/-- A car whose times contain an adjacent duplicate timestamp. -/
def dupTimesCar : CarTelemetry :=
  { positions_normalized := [(0, 0, 0), (10, 0, 0), (99, 0, 99), (20, 0, 20)]
    times := [0, 1, 1, 2]
    throttle := [0, 0, 0, 0]
    brake := [false, false, false, false]
    speed := [0, 0, 0, 0] }

/-- The spec's straight-line track example `[[0,0,0],[1,0,0],[2,0,0]]`. -/
def examplePath : List (List ℚ) := [[0, 0, 0], [1, 0, 0], [2, 0, 0]]

/-- A straight two-point path whose end points are `0.06 < 0.1` apart. -/
def shortPath : List (List ℚ) := [[0, 0, 0], [3 / 50, 0, 0]]

/-- A straight path with an interior duplicated point. -/
def dupPath : List (List ℚ) := [[0, 0, 0], [1, 0, 0], [1, 0, 0], [2, 0, 0]]

/-- The valid points of `dupPath` (index 2 duplicates index 1). -/
def dupPts : List Vector3 := [⟨0, 0, 0⟩, ⟨1, 0, 0⟩, ⟨1, 0, 0⟩, ⟨2, 0, 0⟩]

/-! ### Evaluation helpers -/

theorem jsIndex_natCast {α : Type} (l : List α) (i : Nat) :
    jsIndex l (i : Int) = l[i]? := by
  simp [jsIndex]

theorem jsIndex_natCast_sub_one {α : Type} (l : List α) (i : Nat) (h : 1 ≤ i) :
    jsIndex l ((i : Int) - 1) = l[i - 1]? := by
  have h0 : ((i : Int) - 1) = ((i - 1 : Nat) : Int) := by omega
  rw [h0, jsIndex_natCast]

theorem chain'_lt_getElem {ts : List ℚ} (h : List.Chain' (· < ·) ts)
    {j k : Nat} (hjk : j < k) (hk : k < ts.length) :
    ts[j] < ts[k] := by
  rw [List.chain'_iff_pairwise] at h
  exact List.pairwise_iff_getElem.1 h j k (lt_trans hjk hk) hk hjk

/-- `findIndex (x => t <= x)` returns the first qualifying index. -/
theorem findIdx_ge_located {ts : List ℚ} {t : ℚ} {i : Nat}
    (hi : i < ts.length) (hup : t ≤ ts[i])
    (hlow : ∀ j (hj : j < i), ts[j] < t) :
    ts.findIdx? (fun x => decide (t ≤ x)) = some i := by
  rw [List.findIdx?_eq_some_iff_getElem]
  refine ⟨hi, by simpa using hup, fun j hj => ?_⟩
  simpa using not_le.2 (hlow j hj)

/-- `findIndex` returns `-1` when every sample time is below the query. -/
theorem findIdx_ge_none {ts : List ℚ} {t : ℚ}
    (h : ∀ j (hj : j < ts.length), ts[j] < t) :
    ts.findIdx? (fun x => decide (t ≤ x)) = none := by
  rw [List.findIdx?_eq_none_iff]
  intro x hx
  rcases List.mem_iff_getElem.1 hx with ⟨j, hj, rfl⟩
  simpa using not_le.2 (h j hj)

theorem ratSqrt_mul_self {a : ℚ} (ha : 0 ≤ a) : ratSqrt (a * a) = a := by
  have hnn : 0 ≤ a.num := Rat.num_nonneg.2 ha
  have h1 : (a * a).num.toNat = a.num.toNat * a.num.toNat := by
    rw [Rat.mul_self_num]
    rcases Int.eq_ofNat_of_zero_le hnn with ⟨n, hn⟩
    rw [hn]
    rfl
  have h2 : (a * a).den = a.den * a.den := Rat.mul_self_den a
  unfold ratSqrt
  rw [h1, h2, Nat.sqrt_eq, Nat.sqrt_eq]
  have h3 : ((a.num.toNat : ℤ) : ℚ) = (a.num : ℚ) := by
    rw [Int.toNat_of_nonneg hnn]
  push_cast at h3
  rw [h3, Rat.num_div_den]

theorem ratSqrt_sq_abs (a : ℚ) : ratSqrt (a * a) = |a| := by
  have h : |a| * |a| = a * a := abs_mul_abs_self a
  rw [← h, ratSqrt_mul_self (abs_nonneg a)]

theorem length_eval {v : Vector3} {a : ℚ} (ha : 0 ≤ a)
    (h : v.lengthSq = a * a) : v.length = a := by
  rw [Vector3.length, h, ratSqrt_mul_self ha]

theorem normalize_eval {v : Vector3} {a : ℚ} (ha : 0 < a)
    (h : v.lengthSq = a * a) :
    v.normalize = ⟨v.x / a, v.y / a, v.z / a⟩ := by
  have hl : v.length = a := length_eval ha.le h
  simp only [Vector3.normalize, hl, if_neg (ne_of_gt ha)]

theorem normalize_xaxis {a : ℚ} (ha : a ≠ 0) :
    Vector3.normalize ⟨a, 0, 0⟩ = ⟨a / |a|, 0, 0⟩ := by
  have h : Vector3.lengthSq ⟨a, 0, 0⟩ = |a| * |a| := by
    simp [Vector3.lengthSq, abs_mul_abs_self]
  rw [normalize_eval (abs_pos.2 ha) h]
  norm_num

theorem normalize_zaxis {c : ℚ} (hc : c ≠ 0) :
    Vector3.normalize ⟨0, 0, c⟩ = ⟨0, 0, c / |c|⟩ := by
  have h : Vector3.lengthSq ⟨0, 0, c⟩ = |c| * |c| := by
    simp [Vector3.lengthSq, abs_mul_abs_self]
  rw [normalize_eval (abs_pos.2 hc) h]
  norm_num

/-! ### Interpolation core -/

/-- Core interpolation fact shared by the sampling claims: with strictly
increasing times and `times[i-1] < t < times[i]` (`i ≥ 1`), the sampler
takes the interpolation branch at the located index `i` and writes the
lerped ground-plane components with the vertical fixed at `0.01`,
recolouring from the discrete channels at index `i`. -/
theorem sample_interp_core (car : CarTelemetry) (t : ℚ) (i : Nat)
    (hchain : List.Chain' (· < ·) car.times)
    (hpos : car.positions_normalized.length = car.times.length)
    (hi1 : 1 ≤ i) (tp tn : ℚ)
    (hptime : car.times[i - 1]? = some tp)
    (hntime : car.times[i]? = some tn)
    (hlt1 : tp < t) (hlt2 : t < tn) :
    ∃ pp pn,
      car.positions_normalized[i - 1]? = some pp ∧
      car.positions_normalized[i]? = some pn ∧
      sample car t =
        SampleOutcome.update
          (lerp pp.1 pn.1 (clamp01 ((t - tp) / (tn - tp))), 1 / 100,
            lerp pp.2.2 pn.2.2 (clamp01 ((t - tp) / (tn - tp))))
          (some ((jsIndex car.throttle (i : Int)).getD 0,
                 (jsIndex car.brake (i : Int)).getD false)) := by
  have hi : i < car.times.length := (List.getElem?_eq_some_iff.1 hntime).1
  have hi' : i - 1 < car.times.length := lt_of_le_of_lt (Nat.sub_le i 1) hi
  have htsi : car.times[i] = tn := (List.getElem?_eq_some_iff.1 hntime).2
  have htsp : car.times[i - 1] = tp := (List.getElem?_eq_some_iff.1 hptime).2
  have hip : i < car.positions_normalized.length := by rw [hpos]; exact hi
  have hip' : i - 1 < car.positions_normalized.length :=
    lt_of_le_of_lt (Nat.sub_le i 1) hip
  refine ⟨car.positions_normalized[i - 1], car.positions_normalized[i],
    List.getElem?_eq_getElem hip', List.getElem?_eq_getElem hip, ?_⟩
  have hfind : car.times.findIdx? (fun x => decide (t ≤ x)) = some i := by
    apply findIdx_ge_located hi
    · rw [htsi]; exact hlt2.le
    · intro j hj
      rcases Nat.lt_or_ge j (i - 1) with hcase | hcase
      · calc car.times[j] < car.times[i - 1] :=
              chain'_lt_getElem hchain hcase hi'
          _ = tp := htsp
          _ < t := hlt1
      · have hj' : j = i - 1 := by omega
        subst hj'
        rw [htsp] at *
        exact hlt1
  simp only [sample, hfind]
  rw [if_neg (by omega : ¬i = 0)]
  simp only [interpolateAt, jsIndex_natCast_sub_one car.times i hi1,
    jsIndex_natCast car.times i,
    jsIndex_natCast_sub_one car.positions_normalized i hi1,
    jsIndex_natCast car.positions_normalized i,
    hptime, hntime, List.getElem?_eq_getElem hip', List.getElem?_eq_getElem hip]

/-! ### C1: interpolation between samples -/

/-- C1 (amended): for strictly increasing sample times and `t` strictly
between `times[i-1]` and `times[i]` (`i ≥ 1`, parallel channel lengths),
the sampler writes the position whose two ground-plane components are
`lerp(p[i-1], p[i], f)` with `f = clamp((t - times[i-1]) / (times[i] -
times[i-1]), 0, 1)`, whose vertical component is the fixed `0.01` clearance
(not interpolated and not `0`), and recolours from `throttle[i]` and
`brake[i]` verbatim (floor-to-next; the sampler never reads `speed`).  In
particular at the spec's example `sample(0.5)` yields `[5, 0.01, 0]`. -/
theorem sample_interpolates (car : CarTelemetry) (t : ℚ) (i : Nat)
    (hchain : List.Chain' (· < ·) car.times)
    (hpos : car.positions_normalized.length = car.times.length)
    (hthr : car.throttle.length = car.times.length)
    (hbrk : car.brake.length = car.times.length)
    (hi1 : 1 ≤ i) (tp tn : ℚ)
    (hptime : car.times[i - 1]? = some tp)
    (hntime : car.times[i]? = some tn)
    (hlt1 : tp < t) (hlt2 : t < tn) :
    ∃ pp pn thr brk,
      car.positions_normalized[i - 1]? = some pp ∧
      car.positions_normalized[i]? = some pn ∧
      car.throttle[i]? = some thr ∧
      car.brake[i]? = some brk ∧
      sample car t =
        SampleOutcome.update
          (lerp pp.1 pn.1 (clamp01 ((t - tp) / (tn - tp))), 1 / 100,
            lerp pp.2.2 pn.2.2 (clamp01 ((t - tp) / (tn - tp))))
          (some (thr, brk)) := by
  obtain ⟨pp, pn, h1, h2, h3⟩ :=
    sample_interp_core car t i hchain hpos hi1 tp tn hptime hntime hlt1 hlt2
  have hi : i < car.times.length := (List.getElem?_eq_some_iff.1 hntime).1
  have hit : i < car.throttle.length := by rw [hthr]; exact hi
  have hib : i < car.brake.length := by rw [hbrk]; exact hi
  refine ⟨pp, pn, car.throttle[i], car.brake[i], h1, h2,
    List.getElem?_eq_getElem hit, List.getElem?_eq_getElem hib, ?_⟩
  rw [h3, jsIndex_natCast, jsIndex_natCast, List.getElem?_eq_getElem hit,
    List.getElem?_eq_getElem hib]
  rfl

/-- Concrete evaluation of the spec's example scenario: `sample(0.5)`
writes position `[5, 0.01, 0]` and recolours from throttle 0, brake off. -/
theorem sample_exampleCar_half :
    sample exampleCar (1 / 2) =
      SampleOutcome.update (5, 1 / 100, 0) (some (0, false)) := by
  obtain ⟨pp, pn, h1, h2, h3⟩ := sample_interp_core exampleCar (1 / 2) 1
    (by norm_num [exampleCar, List.chain'_cons]) rfl (by norm_num)
    0 1 rfl rfl (by norm_num) (by norm_num)
  have hpp : pp = ((0 : ℚ), (0 : ℚ), (0 : ℚ)) := by
    have h0 : exampleCar.positions_normalized[1 - 1]? =
        some ((0 : ℚ), (0 : ℚ), (0 : ℚ)) := rfl
    rw [h0] at h1
    exact (Option.some_inj.1 h1).symm
  have hpn : pn = ((10 : ℚ), (0 : ℚ), (0 : ℚ)) := by
    have h0 : exampleCar.positions_normalized[1]? =
        some ((10 : ℚ), (0 : ℚ), (0 : ℚ)) := rfl
    rw [h0] at h2
    exact (Option.some_inj.1 h2).symm
  subst hpp hpn
  rw [h3]
  have hj1 : (jsIndex exampleCar.throttle ((1 : Nat) : Int)).getD 0 = (0 : ℚ) := rfl
  have hj2 : (jsIndex exampleCar.brake ((1 : Nat) : Int)).getD false = false := rfl
  rw [hj1, hj2]
  have hc : clamp01 (((1 : ℚ) / 2 - 0) / (1 - 0)) = 1 / 2 := by
    rw [clamp01]
    norm_num
  rw [hc]
  norm_num [lerp]

/-- C1 witness: the amended theorem applied at the spec's example input. -/
theorem sample_interpolates_witness :
    ∃ pp pn thr brk,
      exampleCar.positions_normalized[0]? = some pp ∧
      exampleCar.positions_normalized[1]? = some pn ∧
      exampleCar.throttle[1]? = some thr ∧
      exampleCar.brake[1]? = some brk ∧
      sample exampleCar (1 / 2) =
        SampleOutcome.update
          (lerp pp.1 pn.1 (clamp01 (((1 : ℚ) / 2 - 0) / (1 - 0))), 1 / 100,
            lerp pp.2.2 pn.2.2 (clamp01 (((1 : ℚ) / 2 - 0) / (1 - 0))))
          (some (thr, brk)) := by
  have h := sample_interpolates exampleCar (1 / 2) 1
    (by norm_num [exampleCar, List.chain'_cons]) rfl rfl rfl (by norm_num)
    0 1 rfl rfl (by norm_num) (by norm_num)
  simpa using h

/-- C1 counterexample: at the spec's own example input the sampler writes
position `[5, 0.01, 0]`, not `[5, 0, 0]`: the vertical component is the
fixed `0.01` clearance, never `0`. -/
theorem sample_example_not_y0 :
    sample exampleCar (1 / 2) =
      SampleOutcome.update (5, 1 / 100, 0) (some (0, false)) ∧
    ((5 : ℚ), (1 : ℚ) / 100, (0 : ℚ)) ≠ ((5 : ℚ), (0 : ℚ), (0 : ℚ)) := by
  refine ⟨sample_exampleCar_half, ?_⟩
  norm_num [Prod.ext_iff]

/-! ### C3: duplicate timestamps -/

/-- C3: the division is always by a strictly positive denominator.  For any
series containing an adjacent duplicate timestamp and any query `t`,
whenever the sampler's located index is some `i ≥ 1` (the interpolation
case), the first-match semantics of `findIndex` force
`times[i-1] < t ≤ times[i]`: the denominator `times[i] - times[i-1]` of the
interpolation fraction is strictly positive, no division by zero occurs and
the result components are well-defined rationals; the guard situation
`times[i] = times[i-1]` never arises at the located index, and under it the
fraction would (vacuously) be `0`. -/
theorem sample_dup_times_no_div_zero (car : CarTelemetry) (t : ℚ) (i : Nat)
    (hdup : hasDuplicateTimes car.times)
    (hfind : car.times.findIdx? (fun x => decide (t ≤ x)) = some i)
    (hi1 : 1 ≤ i) (tp tn : ℚ)
    (hptime : car.times[i - 1]? = some tp)
    (hntime : car.times[i]? = some tn) :
    tp < t ∧ t ≤ tn ∧ 0 < tn - tp ∧
      (tn = tp → clamp01 ((t - tp) / (tn - tp)) = 0) := by
  rcases List.findIdx?_eq_some_iff_getElem.1 hfind with ⟨hi, hp, hlow⟩
  have hi' : i - 1 < car.times.length := lt_of_le_of_lt (Nat.sub_le i 1) hi
  have htsi : car.times[i] = tn := (List.getElem?_eq_some_iff.1 hntime).2
  have htsp : car.times[i - 1] = tp := (List.getElem?_eq_some_iff.1 hptime).2
  have hup : t ≤ tn := by rw [← htsi]; simpa using hp
  have hlo : tp < t := by
    have h := hlow (i - 1) (by omega)
    rw [List.getElem?_eq_some_iff] at hptime
    have h2 : ¬(t ≤ tp) := by
      simpa [htsp] using h
    exact lt_of_not_le h2
  refine ⟨hlo, hup, by linarith, fun h => absurd h (by linarith)⟩

/-- C3 witness: the theorem applied to a series with times `[0, 1, 1, 2]`
at query `t = 1/2`, located index `1`. -/
theorem sample_dup_times_no_div_zero_witness :
    (0 : ℚ) < 1 / 2 ∧ (1 : ℚ) / 2 ≤ 1 ∧ (0 : ℚ) < 1 - 0 ∧
      ((1 : ℚ) = 0 → clamp01 (((1 : ℚ) / 2 - 0) / (1 - 0)) = 0) := by
  exact sample_dup_times_no_div_zero dupTimesCar (1 / 2) 1
    ⟨1, by norm_num [dupTimesCar], rfl⟩
    (by
      apply findIdx_ge_located (by norm_num [dupTimesCar])
      · norm_num [dupTimesCar]
      · intro j hj
        interval_cases j
        norm_num [dupTimesCar])
    (by norm_num) 0 1 rfl rfl

/-! ### C2: clamp-to-start and clamp-to-end -/

/-- Clamp-to-start branch: for `t ≤ times[0]` the sampler writes the first
sample's ground components with the vertical fixed at `0.01` and returns
before the recolouring code. -/
theorem sample_clamp_start (car : CarTelemetry) (t : ℚ) (t0 : ℚ)
    (p0 : ℚ × ℚ × ℚ)
    (ht0 : car.times[0]? = some t0)
    (hp0 : car.positions_normalized[0]? = some p0)
    (ht : t ≤ t0) :
    sample car t = SampleOutcome.update (p0.1, 1 / 100, p0.2.2) none := by
  have h0 : 0 < car.times.length := (List.getElem?_eq_some_iff.1 ht0).1
  have hts0 : car.times[0] = t0 := (List.getElem?_eq_some_iff.1 ht0).2
  have hfind : car.times.findIdx? (fun x => decide (t ≤ x)) = some 0 := by
    apply findIdx_ge_located h0
    · rw [hts0]; exact ht
    · intro j hj; omega
  simp only [sample, hfind, if_true]
  simp only [ht0]
  rw [if_pos ht]
  simp only [hp0]

/-- Clamp-to-end branch: for `t` strictly beyond the last sample time,
`findIndex` returns `-1` and the sampler writes the last sample's ground
components with the vertical fixed at `0.01`, returning before the
recolouring code. -/
theorem sample_clamp_end (car : CarTelemetry) (t : ℚ)
    (hchain : List.Chain' (· < ·) car.times)
    (hne : car.times ≠ []) (tl : ℚ) (pl : ℚ × ℚ × ℚ)
    (htl : car.times[car.times.length - 1]? = some tl)
    (hpl : car.positions_normalized[car.times.length - 1]? = some pl)
    (ht : tl < t) :
    sample car t = SampleOutcome.update (pl.1, 1 / 100, pl.2.2) none := by
  have hlen1 : 1 ≤ car.times.length := List.length_pos.2 hne
  have hl : car.times.length - 1 < car.times.length := by omega
  have htsl : car.times[car.times.length - 1] = tl :=
    (List.getElem?_eq_some_iff.1 htl).2
  have hfind : car.times.findIdx? (fun x => decide (t ≤ x)) = none := by
    apply findIdx_ge_none
    intro j hj
    rcases Nat.lt_or_ge j (car.times.length - 1) with hcase | hcase
    · calc car.times[j] < car.times[car.times.length - 1] :=
            chain'_lt_getElem hchain hcase hl
        _ = tl := htsl
        _ < t := ht
    · have hj' : j = car.times.length - 1 := by omega
      subst hj'
      rw [htsl]
      exact ht
  simp only [sample, hfind, jsIndex_natCast_sub_one car.positions_normalized
    car.times.length hlen1, hpl]

/-- Query exactly at the last sample time of a series of length ≥ 2: the
interpolation branch runs with fraction 1 and writes the last sample's
ground components (the recolouring code does run here). -/
theorem sample_at_last (car : CarTelemetry) (t : ℚ)
    (hchain : List.Chain' (· < ·) car.times)
    (hpos : car.positions_normalized.length = car.times.length)
    (hlen2 : 2 ≤ car.times.length) (tl : ℚ) (pl : ℚ × ℚ × ℚ)
    (htl : car.times[car.times.length - 1]? = some tl)
    (hpl : car.positions_normalized[car.times.length - 1]? = some pl)
    (ht : t = tl) :
    ∃ c, sample car t = SampleOutcome.update (pl.1, 1 / 100, pl.2.2) c := by
  have hl : car.times.length - 1 < car.times.length := by omega
  have hl2 : car.times.length - 1 - 1 < car.times.length := by omega
  have htsl : car.times[car.times.length - 1] = tl :=
    (List.getElem?_eq_some_iff.1 htl).2
  have hi1 : 1 ≤ car.times.length - 1 := by omega
  have htp : car.times[car.times.length - 1 - 1]? =
      some (car.times[car.times.length - 1 - 1]) :=
    List.getElem?_eq_getElem hl2
  have hplt : car.times[car.times.length - 1 - 1] < tl := by
    rw [← htsl]
    exact chain'_lt_getElem hchain (by omega) hl
  have hfind : car.times.findIdx? (fun x => decide (t ≤ x)) =
      some (car.times.length - 1) := by
    apply findIdx_ge_located hl
    · rw [htsl, ht]
    · intro j hj
      calc car.times[j] < car.times[car.times.length - 1] :=
            chain'_lt_getElem hchain hj hl
        _ = tl := htsl
        _ = t := ht.symm
  have hipl : car.times.length - 1 - 1 < car.positions_normalized.length := by
    omega
  have hppq : car.positions_normalized[car.times.length - 1 - 1]? =
      some (car.positions_normalized[car.times.length - 1 - 1]) :=
    List.getElem?_eq_getElem hipl
  simp only [sample, hfind]
  rw [if_neg (by omega : ¬car.times.length - 1 = 0)]
  simp only [interpolateAt, jsIndex_natCast_sub_one car.times
      (car.times.length - 1) hi1,
    jsIndex_natCast car.times (car.times.length - 1),
    jsIndex_natCast_sub_one car.positions_normalized
      (car.times.length - 1) hi1,
    jsIndex_natCast car.positions_normalized (car.times.length - 1),
    htp, htl, hppq, hpl]
  have hden : tl - car.times[car.times.length - 1 - 1] ≠ 0 :=
    sub_ne_zero.2 (ne_of_gt hplt)
  have hfrac : clamp01 ((t - car.times[car.times.length - 1 - 1]) /
      (tl - car.times[car.times.length - 1 - 1])) = 1 := by
    rw [ht, div_self hden, clamp01]
    norm_num
  have hlerp : ∀ a b : ℚ, lerp a b 1 = b := by
    intro a b
    rw [lerp]
    ring
  refine ⟨some ((jsIndex car.throttle ((car.times.length - 1 : Nat) : Int)).getD 0,
    (jsIndex car.brake ((car.times.length - 1 : Nat) : Int)).getD false), ?_⟩
  rw [hfrac, hlerp, hlerp]

/-- C2 (amended): out-of-range queries clamp to the boundary samples, but
the write is the boundary sample's *ground-plane* components with the
vertical fixed at the `0.01` clearance (not the sample's own vertical
component), and the early-returning clamp branches perform no attribute
update; there is no extrapolation, and any `t < 0` behaves exactly like
`t = 0` when the times start at or after `0`. -/
theorem sample_clamps (car : CarTelemetry) (t : ℚ)
    (hchain : List.Chain' (· < ·) car.times)
    (hpos : car.positions_normalized.length = car.times.length)
    (t0 tl : ℚ) (p0 pl : ℚ × ℚ × ℚ)
    (ht0 : car.times[0]? = some t0)
    (hp0 : car.positions_normalized[0]? = some p0)
    (htl : car.times[car.times.length - 1]? = some tl)
    (hpl : car.positions_normalized[car.times.length - 1]? = some pl) :
    (t ≤ t0 → sample car t = SampleOutcome.update (p0.1, 1 / 100, p0.2.2) none) ∧
    (tl < t → sample car t = SampleOutcome.update (pl.1, 1 / 100, pl.2.2) none) ∧
    (t = tl → ∃ c, sample car t = SampleOutcome.update (pl.1, 1 / 100, pl.2.2) c) ∧
    (t < 0 → 0 ≤ t0 → sample car t = sample car 0) := by
  have hne : car.times ≠ [] :=
    List.ne_nil_of_length_pos (List.getElem?_eq_some_iff.1 ht0).1
  refine ⟨fun ht => sample_clamp_start car t t0 p0 ht0 hp0 ht,
    fun ht => sample_clamp_end car t hchain hne tl pl htl hpl ht,
    fun ht => ?_, fun ht ht0n => ?_⟩
  · rcases Nat.lt_or_ge car.times.length 2 with hlen | hlen
    · -- single-sample series: the last sample is the first sample
      have hlen1 : car.times.length = 1 := by
        have := List.length_pos.2 hne
        omega
      have he1 : t0 = tl := by
        rw [hlen1] at htl
        rw [ht0] at htl
        exact Option.some_inj.1 htl
      have he2 : p0 = pl := by
        rw [hlen1] at hpl
        rw [hp0] at hpl
        exact Option.some_inj.1 hpl
      refine ⟨none, ?_⟩
      rw [← he2]
      exact sample_clamp_start car t t0 p0 ht0 hp0 (by rw [ht, ← he1])
    · exact sample_at_last car t hchain hpos hlen tl pl htl hpl ht
  · have hle0 : t ≤ t0 := le_trans ht.le ht0n
    rw [sample_clamp_start car t t0 p0 ht0 hp0 hle0,
      sample_clamp_start car 0 t0 p0 ht0 hp0 ht0n]

/-- C2 witness: the amended theorem applied to a concrete two-sample car at
query `t = -1` (covering the `t < 0` treated-as-`0` case). -/
theorem sample_clamps_witness :
    ((-1 : ℚ) ≤ 0 →
      sample liftedCar (-1) = SampleOutcome.update (2, 1 / 100, 7) none) ∧
    ((1 : ℚ) < -1 →
      sample liftedCar (-1) = SampleOutcome.update (3, 1 / 100, 8) none) ∧
    ((-1 : ℚ) = 1 →
      ∃ c, sample liftedCar (-1) = SampleOutcome.update (3, 1 / 100, 8) c) ∧
    ((-1 : ℚ) < 0 → (0 : ℚ) ≤ 0 → sample liftedCar (-1) = sample liftedCar 0) := by
  exact sample_clamps liftedCar (-1)
    (by norm_num [liftedCar, List.chain'_cons]) rfl 0 1 (2, 5, 7) (3, 6, 8)
    rfl rfl rfl rfl

/-- C2 counterexample: the claim promises "exactly the first sample's
position and attributes"; at a car whose first sample is position
`(2, 5, 7)`, throttle `10`, brake on, the sampler at `t = -1` writes
`(2, 0.01, 7)` — vertical replaced by the fixed clearance — and performs no
attribute update at all. -/
theorem sample_clamp_counterexample :
    sample liftedCar (-1) = SampleOutcome.update (2, 1 / 100, 7) none ∧
    ((2 : ℚ), (1 : ℚ) / 100, (7 : ℚ)) ≠ ((2 : ℚ), (5 : ℚ), (7 : ℚ)) := by
  constructor
  · exact sample_clamp_start liftedCar (-1) 0 (2, 5, 7) rfl rfl (by norm_num)
  · norm_num [Prod.ext_iff]

/-! ### Track boundary loop structure -/

theorem boundaryStep_eq_pp (pts : List Vector3) (i : Nat)
    (accInner accOuter : List Vector3)
    (h : accInner.length = accOuter.length) :
    boundaryStep pts i accInner accOuter =
      boundaryStepPP pts i (headPair accInner accOuter) := by
  cases accInner with
  | nil =>
    cases accOuter with
    | nil => rfl
    | cons b bs => simp at h
  | cons a as =>
    cases accOuter with
    | nil => simp at h
    | cons b bs => rfl

theorem boundaryGo_eq_buildPairs (pts : List Vector3) (is : List Nat) :
    ∀ (accInner accOuter : List Vector3),
      accInner.length = accOuter.length →
      boundaryGo pts is accInner accOuter =
        (accInner.reverse ++
          (buildPairs pts is (headPair accInner accOuter)).map Prod.fst,
         accOuter.reverse ++
          (buildPairs pts is (headPair accInner accOuter)).map Prod.snd) := by
  induction is with
  | nil =>
    intro accInner accOuter h
    simp [boundaryGo, buildPairs]
  | cons i rest ih =>
    intro accInner accOuter h
    simp only [boundaryGo, buildPairs]
    rw [boundaryStep_eq_pp pts i accInner accOuter h]
    rw [ih ((boundaryStepPP pts i (headPair accInner accOuter)).1 :: accInner)
      ((boundaryStepPP pts i (headPair accInner accOuter)).2 :: accOuter)
      (by simp [h])]
    simp [headPair, List.reverse_cons, List.append_assoc]

theorem trackBoundaries_eq (pts : List Vector3) :
    trackBoundaries pts =
      ((buildPairs pts (List.range pts.length) none).map Prod.fst,
       (buildPairs pts (List.range pts.length) none).map Prod.snd) := by
  rw [trackBoundaries, boundaryGo_eq_buildPairs pts (List.range pts.length)
    [] [] rfl]
  simp [headPair]

theorem buildPairs_length (pts : List Vector3) (is : List Nat) :
    ∀ pp, (buildPairs pts is pp).length = is.length := by
  induction is with
  | nil => intro pp; rfl
  | cons i rest ih =>
    intro pp
    simp only [buildPairs, List.length_cons, ih]

theorem interleaveVerts_eq_some (inner : List Vector3) :
    ∀ outer : List Vector3, inner.length ≤ outer.length →
      ∃ vs, interleaveVerts inner outer = some vs ∧
        vs.length = 6 * inner.length := by
  induction inner with
  | nil => exact fun outer h => ⟨[], rfl, rfl⟩
  | cons a as ih =>
    intro outer h
    cases outer with
    | nil => simp at h
    | cons b bs =>
      rcases ih bs (by simpa using h) with ⟨vs, hvs, hlen⟩
      refine ⟨a.x :: a.y :: a.z :: b.x :: b.y :: b.z :: vs, ?_, ?_⟩
      · simp [interleaveVerts, hvs]
      · simp only [List.length_cons, hlen]
        omega

/-! ### C10: parallel boundary arrays -/

/-- Shared length fact: the loop pushes exactly one inner and one outer
point per processed index. -/
theorem trackBoundaries_length (pts : List Vector3) :
    (trackBoundaries pts).1.length = pts.length ∧
    (trackBoundaries pts).2.length = pts.length := by
  rw [trackBoundaries_eq]
  simp [buildPairs_length]

/-- C10: for every input track path the boundary loop appends exactly one
inner and one outer point per valid centreline point, so the two arrays
have equal length (the number of valid points), and the vertex
construction — which indexes `validOuterPoints[i]` for every inner index
`i` — never dereferences `undefined`: it yields `6 n` floats. -/
theorem boundaries_parallel (trackPath : List (List ℚ)) :
    (trackBoundaries (validPoints trackPath)).1.length =
      (validPoints trackPath).length ∧
    (trackBoundaries (validPoints trackPath)).2.length =
      (validPoints trackPath).length ∧
    ∃ vs,
      interleaveVerts (trackBoundaries (validPoints trackPath)).1
        (trackBoundaries (validPoints trackPath)).2 = some vs ∧
      vs.length = 6 * (validPoints trackPath).length := by
  rcases trackBoundaries_length (validPoints trackPath) with ⟨h1, h2⟩
  refine ⟨h1, h2, ?_⟩
  rcases interleaveVerts_eq_some (trackBoundaries (validPoints trackPath)).1
    (trackBoundaries (validPoints trackPath)).2 (by rw [h1, h2]) with
    ⟨vs, hvs, hlen⟩
  exact ⟨vs, hvs, by rw [hlen, h1]⟩

theorem buildPairs_zero (pts : List Vector3) (i : Nat) (rest : List Nat)
    (pp : Option (Vector3 × Vector3)) :
    (buildPairs pts (i :: rest) pp)[0]? = some (boundaryStepPP pts i pp) := by
  simp only [buildPairs, List.getElem?_cons_zero]

theorem buildPairs_succ_rel (pts : List Vector3) :
    ∀ (is : List Nat) (pp : Option (Vector3 × Vector3)) (k j : Nat)
      (q : Vector3 × Vector3),
      is[k + 1]? = some j →
      (buildPairs pts is pp)[k]? = some q →
      (buildPairs pts is pp)[k + 1]? =
        some (boundaryStepPP pts j (some q)) := by
  intro is
  induction is with
  | nil =>
    intro pp k j q h1 h2
    simp at h1
  | cons a rest ih =>
    intro pp k j q h1 h2
    cases k with
    | zero =>
      cases rest with
      | nil => simp at h1
      | cons b rest2 =>
        simp only [buildPairs] at h2 ⊢
        simp only [List.getElem?_cons_zero, Option.some_inj] at h2
        simp only [List.getElem?_cons_succ, List.getElem?_cons_zero,
          Option.some_inj] at h1 ⊢
        rw [← h1, ← h2]
    | succ k2 =>
      simp only [buildPairs, List.getElem?_cons_succ] at h1 h2 ⊢
      exact ih (some (boundaryStepPP pts a pp)) k2 j q h1 h2

theorem boundaryStepPP_dup_none (pts : List Vector3) (i : Nat)
    (h : dupAt pts i) :
    boundaryStepPP pts i none =
      ((pts.getD i ⟨0, 0, 0⟩).addScaledVector ⟨1, 0, 0⟩ (-(trackWidth / 2)),
       (pts.getD i ⟨0, 0, 0⟩).addScaledVector ⟨1, 0, 0⟩ (trackWidth / 2)) := by
  simp only [dupAt] at h
  simp only [boundaryStepPP]
  rw [if_pos h]

theorem boundaryStepPP_dup_some (pts : List Vector3) (i : Nat)
    (li lo : Vector3) (h : dupAt pts i) :
    boundaryStepPP pts i (some (li, lo)) =
      ((pts.getD i ⟨0, 0, 0⟩).addScaledVector
        ((Vector3.subVectors lo li).normalize) (-(trackWidth / 2)),
       (pts.getD i ⟨0, 0, 0⟩).addScaledVector
        ((Vector3.subVectors lo li).normalize) (trackWidth / 2)) := by
  simp only [dupAt] at h
  simp only [boundaryStepPP]
  rw [if_pos h]

/-! ### C6: degenerate-direction policy -/

/-- C6: a duplicated (or near-duplicated) point produces no undefined
geometry.  At any index `k` whose direction test is degenerate, the loop
offsets the current point along the *previous* pair's normal
`normalize(outer[k-1] - inner[k-1])` when a previous pair exists
(`k ≥ 1`), and along the fixed default lateral axis `(1, 0, 0)` when `k = 0`;
in both cases the boundary pair at `k` is a well-defined pair of exact
rationals (over exact arithmetic no non-finite component can arise — the
`isNaN` post-check of the source is dead code here). -/
theorem track_duplicate_policy (pts : List Vector3) (k : Nat)
    (hk : k < pts.length) (hdup : dupAt pts k) :
    (k = 0 →
      (trackBoundaries pts).1[k]? =
        some ((pts.getD k ⟨0, 0, 0⟩).addScaledVector ⟨1, 0, 0⟩
          (-(trackWidth / 2))) ∧
      (trackBoundaries pts).2[k]? =
        some ((pts.getD k ⟨0, 0, 0⟩).addScaledVector ⟨1, 0, 0⟩
          (trackWidth / 2))) ∧
    (∀ li lo, 1 ≤ k →
      (trackBoundaries pts).1[k - 1]? = some li →
      (trackBoundaries pts).2[k - 1]? = some lo →
      (trackBoundaries pts).1[k]? =
        some ((pts.getD k ⟨0, 0, 0⟩).addScaledVector
          ((Vector3.subVectors lo li).normalize) (-(trackWidth / 2))) ∧
      (trackBoundaries pts).2[k]? =
        some ((pts.getD k ⟨0, 0, 0⟩).addScaledVector
          ((Vector3.subVectors lo li).normalize) (trackWidth / 2))) := by
  obtain ⟨m, hm⟩ : ∃ m, pts.length = m + 1 := ⟨pts.length - 1, by omega⟩
  constructor
  · intro hk0
    subst hk0
    rw [trackBoundaries_eq]
    simp only [List.getElem?_map]
    rw [hm, List.range_succ_eq_map, buildPairs_zero,
      boundaryStepPP_dup_none pts 0 hdup]
    constructor <;> rfl
  · intro li lo hk1 hli hlo
    obtain ⟨k2, rfl⟩ : ∃ k2, k = k2 + 1 := ⟨k - 1, by omega⟩
    rw [trackBoundaries_eq] at hli hlo ⊢
    simp only [List.getElem?_map] at hli hlo ⊢
    rcases hq1 : (buildPairs pts (List.range pts.length) none)[k2 + 1 - 1]? with
      _ | q
    · rw [hq1] at hli
      simp at hli
    · rw [hq1] at hli hlo
      simp only [Option.map_some', Option.some_inj] at hli hlo
      have hrange : (List.range pts.length)[k2 + 1]? = some (k2 + 1) := by
        rw [List.getElem?_range hk]
      have hstep := buildPairs_succ_rel pts (List.range pts.length) none
        k2 (k2 + 1) q hrange (by simpa using hq1)
      rw [hstep]
      have hq : q = (li, lo) := by
        rw [← hli, ← hlo]
      rw [hq, boundaryStepPP_dup_some pts (k2 + 1) li lo hdup]
      constructor <;> rfl

/-! ### Straight-line geometry -/

theorem lengthSq_x (d : ℚ) : Vector3.lengthSq ⟨d, 0, 0⟩ = d * d := by
  simp [Vector3.lengthSq]

theorem lengthSq_z (c : ℚ) : Vector3.lengthSq ⟨0, 0, c⟩ = c * c := by
  simp [Vector3.lengthSq]

theorem sq_ge_eps {d : ℚ} (h : 1 / 10000 ≤ |d|) : ¬d * d < epsSq := by
  have h2 : (1 : ℚ) / 10000 * (1 / 10000) ≤ |d| * |d| :=
    mul_le_mul h h (by norm_num) (abs_nonneg d)
  rw [abs_mul_abs_self] at h2
  rw [epsSq]
  intro hlt
  linarith

theorem normalize_xaxis_pos {d : ℚ} (h : 0 < d) :
    Vector3.normalize ⟨d, 0, 0⟩ = ⟨1, 0, 0⟩ := by
  rw [normalize_xaxis (ne_of_gt h), abs_of_pos h, div_self (ne_of_gt h)]

theorem normalize_xaxis_neg {d : ℚ} (h : d < 0) :
    Vector3.normalize ⟨d, 0, 0⟩ = ⟨-1, 0, 0⟩ := by
  rw [normalize_xaxis (ne_of_lt h), abs_of_neg h, div_neg,
    div_self (ne_of_lt h)]

theorem normalize_unit_z : Vector3.normalize ⟨0, 0, 1⟩ = ⟨0, 0, 1⟩ := by
  rw [normalize_zaxis (by norm_num : (1 : ℚ) ≠ 0)]
  norm_num

theorem normalize_neg_unit_z : Vector3.normalize ⟨0, 0, -1⟩ = ⟨0, 0, -1⟩ := by
  rw [normalize_zaxis (by norm_num : (-1 : ℚ) ≠ 0)]
  norm_num

theorem getD_map_straight (xs : List ℚ) (j : Nat) :
    (xs.map (fun a => (⟨a, 0, 0⟩ : Vector3))).getD j ⟨0, 0, 0⟩ =
      ⟨xs.getD j 0, 0, 0⟩ := by
  rw [List.getD_eq_getElem?_getD, List.getD_eq_getElem?_getD,
    List.getElem?_map]
  cases xs[j]? <;> rfl

theorem straight_mono (xs : List ℚ)
    (hgap : ∀ j, j + 1 < xs.length →
      xs.getD j 0 + 1 / 10000 ≤ xs.getD (j + 1) 0) :
    ∀ j k, j < k → k < xs.length →
      xs.getD j 0 + 1 / 10000 ≤ xs.getD k 0 := by
  intro j k
  induction k with
  | zero => omega
  | succ k2 ih =>
    intro hjk hk
    rcases Nat.lt_or_ge j k2 with h | h
    · have h1 := ih h (by omega)
      have h2 := hgap k2 hk
      linarith
    · have hj : j = k2 := by omega
      subst hj
      exact hgap j hk

/-- The boundary step at the first point of an x-aligned strictly
increasing path: wrap-around `prev` is the last point, the two normalized
directions cancel, and the opposing-direction branch yields the normal
`(0, 0, -1)` — the offsets land at `z = ±width/2` with the inner point on
the positive side. -/
theorem stepPP_straight_first (xs : List ℚ)
    (pp : Option (Vector3 × Vector3)) (hn : 2 ≤ xs.length)
    (h1 : xs.getD 0 0 + 1 / 10000 ≤ xs.getD (xs.length - 1) 0)
    (h2 : 1 / 10000 ≤ xs.getD 1 0 - xs.getD 0 0) :
    boundaryStepPP (xs.map (fun a => (⟨a, 0, 0⟩ : Vector3))) 0 pp =
      (⟨xs.getD 0 0, 0, trackWidth / 2⟩,
       ⟨xs.getD 0 0, 0, -(trackWidth / 2)⟩) := by
  simp only [boundaryStepPP, List.length_map, getD_map_straight]
  rw [if_neg (lt_irrefl 0), if_pos (by omega : 0 < xs.length - 1)]
  simp only [Vector3.subVectors, sub_zero, lengthSq_x]
  rw [if_neg (not_or.2 ⟨sq_ge_eps (by rw [abs_of_neg (by linarith)]; linarith),
    sq_ge_eps (by rw [abs_of_pos (by linarith)]; linarith)⟩)]
  rw [normalize_xaxis_neg (by linarith), normalize_xaxis_pos (by linarith)]
  norm_num [Vector3.addVectors, Vector3.addScaledVector, lengthSq_x,
    lengthSq_z, epsSq, normalize_neg_unit_z]

/-- The boundary step at the last point of an x-aligned strictly increasing
path: wrap-around `next` is the first point, the directions cancel, and the
opposing-direction branch yields the normal `(0, 0, 1)`. -/
theorem stepPP_straight_last (xs : List ℚ)
    (pp : Option (Vector3 × Vector3)) (hn : 2 ≤ xs.length)
    (h1 : 1 / 10000 ≤ xs.getD (xs.length - 1) 0 - xs.getD (xs.length - 2) 0)
    (h2 : xs.getD 0 0 + 1 / 10000 ≤ xs.getD (xs.length - 1) 0) :
    boundaryStepPP (xs.map (fun a => (⟨a, 0, 0⟩ : Vector3)))
        (xs.length - 1) pp =
      (⟨xs.getD (xs.length - 1) 0, 0, -(trackWidth / 2)⟩,
       ⟨xs.getD (xs.length - 1) 0, 0, trackWidth / 2⟩) := by
  simp only [boundaryStepPP, List.length_map, getD_map_straight]
  rw [if_pos (by omega : 0 < xs.length - 1),
    if_neg (lt_irrefl (xs.length - 1))]
  have he : xs.length - 1 - 1 = xs.length - 2 := by omega
  rw [he]
  simp only [Vector3.subVectors, sub_zero, lengthSq_x]
  rw [if_neg (not_or.2 ⟨sq_ge_eps (by rw [abs_of_pos (by linarith)]; linarith),
    sq_ge_eps (by rw [abs_of_neg (by linarith)]; linarith)⟩)]
  rw [normalize_xaxis_pos (by linarith), normalize_xaxis_neg (by linarith)]
  norm_num [Vector3.addVectors, Vector3.addScaledVector, lengthSq_x,
    lengthSq_z, epsSq, normalize_unit_z]

/-- The boundary step at an interior point of an x-aligned strictly
increasing path: the averaged tangent is the x axis and the normal is
`(0, 0, 1)`. -/
theorem stepPP_straight_interior (xs : List ℚ) (k : Nat)
    (pp : Option (Vector3 × Vector3)) (hk0 : 0 < k) (hkn : k < xs.length - 1)
    (h1 : 1 / 10000 ≤ xs.getD k 0 - xs.getD (k - 1) 0)
    (h2 : 1 / 10000 ≤ xs.getD (k + 1) 0 - xs.getD k 0) :
    boundaryStepPP (xs.map (fun a => (⟨a, 0, 0⟩ : Vector3))) k pp =
      (⟨xs.getD k 0, 0, -(trackWidth / 2)⟩,
       ⟨xs.getD k 0, 0, trackWidth / 2⟩) := by
  simp only [boundaryStepPP, List.length_map, getD_map_straight]
  rw [if_pos hk0, if_pos hkn]
  simp only [Vector3.subVectors, sub_zero, lengthSq_x]
  rw [if_neg (not_or.2 ⟨sq_ge_eps (by rw [abs_of_pos (by linarith)]; linarith),
    sq_ge_eps (by rw [abs_of_pos (by linarith)]; linarith)⟩)]
  rw [normalize_xaxis_pos (by linarith), normalize_xaxis_pos (by linarith)]
  norm_num [Vector3.addVectors, Vector3.addScaledVector, lengthSq_x,
    lengthSq_z, epsSq, normalize_unit_z, normalize_xaxis_pos]

/-- When every processed index has an accumulator-independent step value,
the loop output is a plain map. -/
theorem buildPairs_of_const (pts : List Vector3) (f : Nat → Vector3 × Vector3) :
    ∀ (is : List Nat) (pp : Option (Vector3 × Vector3)),
      (∀ i ∈ is, ∀ pp', boundaryStepPP pts i pp' = f i) →
      buildPairs pts is pp = is.map f := by
  intro is
  induction is with
  | nil => intro pp h; rfl
  | cons a rest ih =>
    intro pp h
    simp only [buildPairs, List.map_cons]
    rw [h a (List.mem_cons_self a rest) pp,
      ih (some (f a)) (fun i hi pp' => h i (List.mem_cons_of_mem a hi) pp')]

/-- Combined per-index value of the boundary step on an x-aligned strictly
increasing path: the inner offset sits at `z = width/2` for the first point
(whose wrap-around normal is flipped) and at `z = -width/2` elsewhere, with
the outer offset mirrored. -/
theorem stepPP_straight (xs : List ℚ) (k : Nat)
    (pp : Option (Vector3 × Vector3)) (hn : 2 ≤ xs.length)
    (hk : k < xs.length)
    (hgap : ∀ j, j + 1 < xs.length →
      xs.getD j 0 + 1 / 10000 ≤ xs.getD (j + 1) 0) :
    boundaryStepPP (xs.map (fun a => (⟨a, 0, 0⟩ : Vector3))) k pp =
      (⟨xs.getD k 0, 0,
          if k = 0 then trackWidth / 2 else -(trackWidth / 2)⟩,
       ⟨xs.getD k 0, 0,
          if k = 0 then -(trackWidth / 2) else trackWidth / 2⟩) := by
  have hwrap : xs.getD 0 0 + 1 / 10000 ≤ xs.getD (xs.length - 1) 0 :=
    straight_mono xs hgap 0 (xs.length - 1) (by omega) (by omega)
  rcases eq_or_ne k 0 with hk0 | hk0
  · subst hk0
    rw [if_pos rfl, if_pos rfl]
    exact stepPP_straight_first xs pp hn hwrap
      (by have := hgap 0 (by omega); linarith)
  · rcases eq_or_ne k (xs.length - 1) with hkl | hkl
    · subst hkl
      rw [if_neg hk0, if_neg hk0]
      refine stepPP_straight_last xs pp hn ?_ hwrap
      have := hgap (xs.length - 2) (by omega)
      have he : xs.length - 2 + 1 = xs.length - 1 := by omega
      rw [he] at this
      linarith
    · rw [if_neg hk0, if_neg hk0]
      refine stepPP_straight_interior xs k pp (by omega) (by omega) ?_ ?_
      · have := hgap (k - 1) (by omega)
        have he : k - 1 + 1 = k := by omega
        rw [he] at this
        linarith
      · have := hgap k (by omega)
        linarith

/-- The whole boundary output of an x-aligned strictly increasing path. -/
theorem trackBoundaries_straight (xs : List ℚ) (hn : 2 ≤ xs.length)
    (hgap : ∀ j, j + 1 < xs.length →
      xs.getD j 0 + 1 / 10000 ≤ xs.getD (j + 1) 0) :
    trackBoundaries (xs.map (fun a => (⟨a, 0, 0⟩ : Vector3))) =
      ((List.range xs.length).map (fun k =>
        (⟨xs.getD k 0, 0,
          if k = 0 then trackWidth / 2 else -(trackWidth / 2)⟩ : Vector3)),
       (List.range xs.length).map (fun k =>
        (⟨xs.getD k 0, 0,
          if k = 0 then -(trackWidth / 2) else trackWidth / 2⟩ : Vector3))) := by
  rw [trackBoundaries_eq]
  rw [buildPairs_of_const (xs.map (fun a => (⟨a, 0, 0⟩ : Vector3)))
    (fun k =>
      (⟨xs.getD k 0, 0,
          if k = 0 then trackWidth / 2 else -(trackWidth / 2)⟩,
       ⟨xs.getD k 0, 0,
          if k = 0 then -(trackWidth / 2) else trackWidth / 2⟩))
    (List.range (xs.map (fun a => (⟨a, 0, 0⟩ : Vector3))).length) none
    (fun i hi pp' => stepPP_straight xs i pp' hn
      (by simpa using List.mem_range.1 (by simpa using hi)) hgap)]
  simp [List.map_map]

theorem validPoints_examplePath :
    validPoints examplePath = [⟨0, 0, 0⟩, ⟨1, 0, 0⟩, ⟨2, 0, 0⟩] := by
  norm_num [validPoints, examplePath, validatePoint, List.filterMap_cons]

theorem examplePath_boundaries :
    trackBoundaries (validPoints examplePath) =
      ([⟨0, 0, 1 / 25⟩, ⟨1, 0, -(1 / 25)⟩, ⟨2, 0, -(1 / 25)⟩],
       [⟨0, 0, -(1 / 25)⟩, ⟨1, 0, 1 / 25⟩, ⟨2, 0, 1 / 25⟩]) := by
  have hmap : validPoints examplePath =
      ([0, 1, 2] : List ℚ).map (fun a => (⟨a, 0, 0⟩ : Vector3)) := by
    rw [validPoints_examplePath]
    rfl
  rw [hmap, trackBoundaries_straight [0, 1, 2] (by norm_num)
    (by
      intro j hj
      have hj2 : j < 2 := by simp at hj; omega
      interval_cases j <;>
        norm_num [List.getD_cons_zero, List.getD_cons_succ])]
  norm_num [List.range_succ, trackWidth, List.getD_cons_zero,
    List.getD_cons_succ]

theorem validPoints_shortPath :
    validPoints shortPath = [⟨0, 0, 0⟩, ⟨3 / 50, 0, 0⟩] := by
  norm_num [validPoints, shortPath, validatePoint, List.filterMap_cons]

theorem shortPath_boundaries :
    trackBoundaries (validPoints shortPath) =
      ([⟨0, 0, 1 / 25⟩, ⟨3 / 50, 0, -(1 / 25)⟩],
       [⟨0, 0, -(1 / 25)⟩, ⟨3 / 50, 0, 1 / 25⟩]) := by
  have hmap : validPoints shortPath =
      ([0, 3 / 50] : List ℚ).map (fun a => (⟨a, 0, 0⟩ : Vector3)) := by
    rw [validPoints_shortPath]
    rfl
  rw [hmap, trackBoundaries_straight [0, 3 / 50] (by norm_num)
    (by
      intro j hj
      have hj2 : j < 1 := by simp at hj; omega
      interval_cases j <;>
        norm_num [List.getD_cons_zero, List.getD_cons_succ])]
  norm_num [List.range_succ, trackWidth, List.getD_cons_zero,
    List.getD_cons_succ]

theorem examplePath_mesh :
    ∃ m, asphaltMesh (trackBoundaries (validPoints examplePath)).1
        (trackBoundaries (validPoints examplePath)).2 = some m ∧
      m.vertices.length = 18 ∧ m.indices.length = 12 := by
  rw [examplePath_boundaries]
  rcases interleaveVerts_eq_some
      [⟨0, 0, 1 / 25⟩, ⟨1, 0, -(1 / 25)⟩, ⟨2, 0, -(1 / 25)⟩]
      [⟨0, 0, -(1 / 25)⟩, ⟨1, 0, 1 / 25⟩, ⟨2, 0, 1 / 25⟩]
      (by norm_num) with ⟨vs, hvs, hlen⟩
  have hclose : closeIndices
      [⟨0, 0, 1 / 25⟩, ⟨1, 0, -(1 / 25)⟩, ⟨2, 0, -(1 / 25)⟩] = [] := by
    have hh : ([⟨0, 0, 1 / 25⟩, ⟨1, 0, -(1 / 25)⟩,
        ⟨2, 0, -(1 / 25)⟩] : List Vector3).head? = some ⟨0, 0, 1 / 25⟩ := rfl
    have hl : ([⟨0, 0, 1 / 25⟩, ⟨1, 0, -(1 / 25)⟩,
        ⟨2, 0, -(1 / 25)⟩] : List Vector3).getLast? =
        some ⟨2, 0, -(1 / 25)⟩ := rfl
    simp only [closeIndices, hh, hl]
    rw [if_neg]
    norm_num [Vector3.distanceToSq, Vector3.subVectors, Vector3.lengthSq]
  refine ⟨⟨vs, segIndices 3 ++ closeIndices
      [⟨0, 0, 1 / 25⟩, ⟨1, 0, -(1 / 25)⟩, ⟨2, 0, -(1 / 25)⟩]⟩, ?_, ?_, ?_⟩
  · simp only [asphaltMesh]
    rw [if_neg (by norm_num)]
    simp only [hvs, Option.map_some']
    norm_num
  · simpa using hlen
  · rw [hclose]
    rfl

/-! ### C5: straight-line offsets -/

/-- C5 (amended): for an x-aligned straight-line path of N ≥ 2 points whose
adjacent gaps are at least the `1e-4` degeneracy threshold, every inner and
outer offset differs from its centreline point only along `z`, by exactly
`±trackWidth/2` — perpendicular to the segment direction and exactly
`width/2 = 0.04` from the centreline, with inner and outer mirrored (the
endpoints' normals are flipped relative to the interior by the wrap-around
neighbour rule).  For the spec's example path, with the code's fixed width
`0.08` (there is no width parameter): inner =
`[[0,0,0.04],[1,0,-0.04],[2,0,-0.04]]`, outer =
`[[0,0,-0.04],[1,0,0.04],[2,0,0.04]]`, and the mesh has 6 vertices
(18 floats) and 4 triangles (12 indices), with no closing triangles. -/
theorem track_straight_line :
    (∀ xs : List ℚ, 2 ≤ xs.length →
      (∀ j, j + 1 < xs.length →
        xs.getD j 0 + 1 / 10000 ≤ xs.getD (j + 1) 0) →
      ∀ k, k < xs.length →
        ∃ c : ℚ, (c = trackWidth / 2 ∨ c = -(trackWidth / 2)) ∧
          (trackBoundaries (xs.map (fun a => (⟨a, 0, 0⟩ : Vector3)))).1[k]? =
            some ⟨xs.getD k 0, 0, c⟩ ∧
          (trackBoundaries (xs.map (fun a => (⟨a, 0, 0⟩ : Vector3)))).2[k]? =
            some ⟨xs.getD k 0, 0, -c⟩) ∧
    validPoints examplePath = [⟨0, 0, 0⟩, ⟨1, 0, 0⟩, ⟨2, 0, 0⟩] ∧
    trackBoundaries (validPoints examplePath) =
      ([⟨0, 0, 1 / 25⟩, ⟨1, 0, -(1 / 25)⟩, ⟨2, 0, -(1 / 25)⟩],
       [⟨0, 0, -(1 / 25)⟩, ⟨1, 0, 1 / 25⟩, ⟨2, 0, 1 / 25⟩]) ∧
    (∃ m, asphaltMesh (trackBoundaries (validPoints examplePath)).1
        (trackBoundaries (validPoints examplePath)).2 = some m ∧
      m.vertices.length = 18 ∧ m.indices.length = 12) := by
  refine ⟨?_, validPoints_examplePath, examplePath_boundaries, examplePath_mesh⟩
  intro xs hn hgap k hk
  rw [trackBoundaries_straight xs hn hgap]
  refine ⟨if k = 0 then trackWidth / 2 else -(trackWidth / 2), ?_, ?_, ?_⟩
  · split
    · exact Or.inl rfl
    · exact Or.inr rfl
  · simp only [List.getElem?_map, List.getElem?_range hk, Option.map_some']
  · simp only [List.getElem?_map, List.getElem?_range hk, Option.map_some',
      Option.some_inj]
    by_cases hk0 : k = 0 <;> simp [hk0]

/-- C5 witness: the general part of the theorem applied at the example path
`[0, 1, 2]`, index 1. -/
theorem track_straight_line_witness :
    ∃ c : ℚ, (c = trackWidth / 2 ∨ c = -(trackWidth / 2)) ∧
      (trackBoundaries (([0, 1, 2] : List ℚ).map
          (fun a => (⟨a, 0, 0⟩ : Vector3)))).1[1]? =
        some ⟨([0, 1, 2] : List ℚ).getD 1 0, 0, c⟩ ∧
      (trackBoundaries (([0, 1, 2] : List ℚ).map
          (fun a => (⟨a, 0, 0⟩ : Vector3)))).2[1]? =
        some ⟨([0, 1, 2] : List ℚ).getD 1 0, 0, -c⟩ := by
  exact track_straight_line.1 [0, 1, 2] (by norm_num)
    (by
      intro j hj
      have hj2 : j < 2 := by simp at hj; omega
      interval_cases j <;>
        norm_num [List.getD_cons_zero, List.getD_cons_succ])
    1 (by norm_num)

/-- C5 counterexample: at the spec's example path the generated inner
boundary is `[[0,0,0.04],[1,0,-0.04],[2,0,-0.04]]` — width `0.08` (the code
has no width parameter) and flipped endpoint normals — which differs from
the claimed `[[0,0,0.05],[1,0,0.05],[2,0,0.05]]`. -/
theorem track_straight_line_counterexample :
    (trackBoundaries (validPoints examplePath)).1 =
      [⟨0, 0, 1 / 25⟩, ⟨1, 0, -(1 / 25)⟩, ⟨2, 0, -(1 / 25)⟩] ∧
    ([⟨0, 0, 1 / 25⟩, ⟨1, 0, -(1 / 25)⟩, ⟨2, 0, -(1 / 25)⟩] : List Vector3) ≠
      [⟨0, 0, 1 / 20⟩, ⟨1, 0, 1 / 20⟩, ⟨2, 0, 1 / 20⟩] := by
  constructor
  · rw [examplePath_boundaries]
  · norm_num [Vector3.mk.injEq]

/-- C6 witness: the theorem applied to a straight path with an interior
duplicated point, at the duplicated index 2. -/
theorem track_duplicate_policy_witness :
    ((2 : Nat) = 0 →
      (trackBoundaries dupPts).1[2]? =
        some ((dupPts.getD 2 ⟨0, 0, 0⟩).addScaledVector ⟨1, 0, 0⟩
          (-(trackWidth / 2))) ∧
      (trackBoundaries dupPts).2[2]? =
        some ((dupPts.getD 2 ⟨0, 0, 0⟩).addScaledVector ⟨1, 0, 0⟩
          (trackWidth / 2))) ∧
    (∀ li lo, 1 ≤ (2 : Nat) →
      (trackBoundaries dupPts).1[2 - 1]? = some li →
      (trackBoundaries dupPts).2[2 - 1]? = some lo →
      (trackBoundaries dupPts).1[2]? =
        some ((dupPts.getD 2 ⟨0, 0, 0⟩).addScaledVector
          ((Vector3.subVectors lo li).normalize) (-(trackWidth / 2))) ∧
      (trackBoundaries dupPts).2[2]? =
        some ((dupPts.getD 2 ⟨0, 0, 0⟩).addScaledVector
          ((Vector3.subVectors lo li).normalize) (trackWidth / 2))) := by
  exact track_duplicate_policy dupPts 2 (by norm_num [dupPts])
    (by
      left
      norm_num [dupPts, Vector3.subVectors, Vector3.lengthSq, epsSq,
        List.getD_cons_zero, List.getD_cons_succ])

/-! ### C7: loop-closing stitch -/

/-- C7 (amended): the loop-closing test compares the first and last *inner
boundary* points (not the centreline points) against `ε_close = 0.1`: when
`distance(inner[0], inner[last]) < 0.1` the index buffer is the open-strip
triangles plus exactly the two closing triangles connecting the last
boundary pair (vertex indexes `2(n-1)` and `2(n-1)+1`) back to the first
boundary pair (vertex indexes 0 and 1); otherwise no closing triangles are
emitted. -/
theorem track_loop_stitch (trackPath : List (List ℚ))
    (h2 : 2 ≤ (validPoints trackPath).length) :
    ∃ m first last,
      asphaltMesh (trackBoundaries (validPoints trackPath)).1
        (trackBoundaries (validPoints trackPath)).2 = some m ∧
      (trackBoundaries (validPoints trackPath)).1.head? = some first ∧
      (trackBoundaries (validPoints trackPath)).1.getLast? = some last ∧
      (Vector3.distanceToSq first last < 1 / 100 →
        m.indices = segIndices (validPoints trackPath).length ++
          [((validPoints trackPath).length - 1) * 2,
           ((validPoints trackPath).length - 1) * 2 + 1, 0,
           ((validPoints trackPath).length - 1) * 2 + 1, 1, 0]) ∧
      (¬Vector3.distanceToSq first last < 1 / 100 →
        m.indices = segIndices (validPoints trackPath).length) := by
  rcases trackBoundaries_length (validPoints trackPath) with ⟨hi, ho⟩
  have hi2 : 2 ≤ (trackBoundaries (validPoints trackPath)).1.length := by
    rw [hi]; exact h2
  have hipos : 0 < (trackBoundaries (validPoints trackPath)).1.length := by
    omega
  rcases interleaveVerts_eq_some (trackBoundaries (validPoints trackPath)).1
    (trackBoundaries (validPoints trackPath)).2 (by rw [hi, ho]) with
    ⟨vs, hvs, hvslen⟩
  have hhead : (trackBoundaries (validPoints trackPath)).1.head? =
      some ((trackBoundaries (validPoints trackPath)).1[0]) := by
    rw [List.head?_eq_getElem?]
    exact List.getElem?_eq_getElem hipos
  have hlastlt : (trackBoundaries (validPoints trackPath)).1.length - 1 <
      (trackBoundaries (validPoints trackPath)).1.length := by omega
  have hlast : (trackBoundaries (validPoints trackPath)).1.getLast? =
      some ((trackBoundaries (validPoints trackPath)).1[
        (trackBoundaries (validPoints trackPath)).1.length - 1]) := by
    rw [List.getLast?_eq_getElem?]
    exact List.getElem?_eq_getElem hlastlt
  refine ⟨⟨vs, segIndices (trackBoundaries (validPoints trackPath)).1.length ++
      closeIndices (trackBoundaries (validPoints trackPath)).1⟩,
    (trackBoundaries (validPoints trackPath)).1[0],
    (trackBoundaries (validPoints trackPath)).1[
      (trackBoundaries (validPoints trackPath)).1.length - 1],
    ?_, hhead, hlast, ?_, ?_⟩
  · simp only [asphaltMesh]
    rw [if_neg (by omega), hvs]
    rfl
  · intro hclose
    simp only [closeIndices, hhead, hlast]
    rw [if_pos hclose, hi]
  · intro hfar
    simp only [closeIndices, hhead, hlast]
    rw [if_neg hfar, hi, List.append_nil]

/-- C7 witness: the amended theorem applied to the concrete two-point
straight path. -/
theorem track_loop_stitch_witness :
    ∃ m first last,
      asphaltMesh (trackBoundaries (validPoints shortPath)).1
        (trackBoundaries (validPoints shortPath)).2 = some m ∧
      (trackBoundaries (validPoints shortPath)).1.head? = some first ∧
      (trackBoundaries (validPoints shortPath)).1.getLast? = some last ∧
      (Vector3.distanceToSq first last < 1 / 100 →
        m.indices = segIndices (validPoints shortPath).length ++
          [((validPoints shortPath).length - 1) * 2,
           ((validPoints shortPath).length - 1) * 2 + 1, 0,
           ((validPoints shortPath).length - 1) * 2 + 1, 1, 0]) ∧
      (¬Vector3.distanceToSq first last < 1 / 100 →
        m.indices = segIndices (validPoints shortPath).length) := by
  exact track_loop_stitch shortPath (by rw [validPoints_shortPath]; norm_num)

/-- C7 counterexample: for the straight two-point path
`[[0,0,0],[0.06,0,0]]` the first and last *centreline* points are within
`ε_close = 0.1` of each other (distance 0.06), yet the emitted index buffer
is exactly the two open-strip triangles `[0,1,2,1,3,2]` with no closing
triangles: the code tests the *inner boundary* points, whose distance here
is exactly 0.1 (not below it). -/
theorem track_loop_stitch_counterexample :
    validPoints shortPath = [⟨0, 0, 0⟩, ⟨3 / 50, 0, 0⟩] ∧
    Vector3.distanceToSq ⟨0, 0, 0⟩ ⟨3 / 50, 0, 0⟩ < 1 / 100 ∧
    (∃ m, asphaltMesh (trackBoundaries (validPoints shortPath)).1
        (trackBoundaries (validPoints shortPath)).2 = some m ∧
      m.indices = [0, 1, 2, 1, 3, 2]) := by
  refine ⟨validPoints_shortPath, ?_, ?_⟩
  · norm_num [Vector3.distanceToSq, Vector3.subVectors, Vector3.lengthSq]
  · rw [shortPath_boundaries]
    rcases interleaveVerts_eq_some [⟨0, 0, 1 / 25⟩, ⟨3 / 50, 0, -(1 / 25)⟩]
      [⟨0, 0, -(1 / 25)⟩, ⟨3 / 50, 0, 1 / 25⟩] (by norm_num) with
      ⟨vs, hvs, hvslen⟩
    have hclose : closeIndices [⟨0, 0, 1 / 25⟩, ⟨3 / 50, 0, -(1 / 25)⟩] = [] := by
      have hh : ([⟨0, 0, 1 / 25⟩, ⟨3 / 50, 0, -(1 / 25)⟩] :
          List Vector3).head? = some ⟨0, 0, 1 / 25⟩ := rfl
      have hl : ([⟨0, 0, 1 / 25⟩, ⟨3 / 50, 0, -(1 / 25)⟩] :
          List Vector3).getLast? = some ⟨3 / 50, 0, -(1 / 25)⟩ := rfl
      simp only [closeIndices, hh, hl]
      rw [if_neg]
      norm_num [Vector3.distanceToSq, Vector3.subVectors, Vector3.lengthSq]
    have hidx : segIndices ([⟨0, 0, 1 / 25⟩, ⟨3 / 50, 0, -(1 / 25)⟩] :
        List Vector3).length ++
        closeIndices [⟨0, 0, 1 / 25⟩, ⟨3 / 50, 0, -(1 / 25)⟩] =
        [0, 1, 2, 1, 3, 2] := by
      rw [hclose, List.append_nil]
      rfl
    refine ⟨⟨vs, [0, 1, 2, 1, 3, 2]⟩, ?_, rfl⟩
    simp only [asphaltMesh]
    rw [if_neg (by norm_num), hvs, ← hidx]
    rfl

/-! ### C4: sampling an empty series -/

/-- C4: an entity with an empty time series does **not** produce a silent
no-op.  `findIndex` returns `-1` on an empty array, the clamp-to-end branch
then indexes `positions_normalized[times.length - 1] = positions_normalized[-1]`,
which is `undefined`, and `lastPos[0]` throws a TypeError — modelled by the
`crash` outcome.  This contradicts the spec's no-op / never-fatal policy. -/
theorem sample_empty_crashes :
    sample ⟨[], [], [], [], []⟩ 0 = SampleOutcome.crash := rfl

/-! ### C8: advanceTime -/

/-- C8: `advance(delta)` leaves the whole state unchanged when not playing,
and when playing it changes only `currentTime`, by exactly
`delta * playbackSpeed`. -/
theorem advanceTime_spec (s : PlaybackState) (delta : ℚ) :
    (s.isPlaying = false → advanceTime delta s = s) ∧
    (s.isPlaying = true →
      advanceTime delta s =
        { currentTime := s.currentTime + delta * s.playbackSpeed,
          isPlaying := s.isPlaying,
          playbackSpeed := s.playbackSpeed }) := by
  constructor <;> intro h <;> simp [advanceTime, h]

/-- C8 witness: the theorem applied at a concrete paused state and at a
concrete playing state. -/
theorem advanceTime_spec_witness :
    advanceTime 2 initialState = initialState ∧
    advanceTime 2 { currentTime := 1, isPlaying := true, playbackSpeed := 3 } =
      { currentTime := 7, isPlaying := true, playbackSpeed := 3 } := by
  constructor
  · exact (advanceTime_spec initialState 2).1 rfl
  · have h :=
      (advanceTime_spec
        { currentTime := 1, isPlaying := true, playbackSpeed := 3 } 2).2 rfl
    norm_num at h
    exact h

/-! ### C9: speed clamping -/

/-- Button presses keep the stored multiplier inside `[0.5, 5]`. -/
theorem speed_bounds_preserved (acts : List SpeedAction) :
    ∀ s : PlaybackState, 1 / 2 ≤ s.playbackSpeed → s.playbackSpeed ≤ 5 →
      1 / 2 ≤ (applySpeedActions s acts).playbackSpeed ∧
        (applySpeedActions s acts).playbackSpeed ≤ 5 := by
  induction acts with
  | nil => exact fun s h1 h2 => ⟨h1, h2⟩
  | cons a rest ih =>
    intro s h1 h2
    have hstep : 1 / 2 ≤ (applySpeedAction s a).playbackSpeed ∧
        (applySpeedAction s a).playbackSpeed ≤ 5 := by
      cases a
      · refine ⟨le_min (by norm_num) (by linarith), min_le_left _ _⟩
      · refine ⟨le_max_left _ _, max_le (by norm_num) (by linarith)⟩
    exact ih (applySpeedAction s a) hstep.1 hstep.2

/-- C9 counterexample: the provider's `setPlaybackSpeed` is the raw state
setter — `setSpeed(100)` stores `100`, not `min 5 (max 0.5 100) = 5`. -/
theorem setPlaybackSpeed_unclamped :
    (setPlaybackSpeed 100 initialState).playbackSpeed = 100 ∧
    (100 : ℚ) ≠ min 5 (max (1 / 2) 100) := by
  refine ⟨rfl, ?_⟩
  norm_num

/-- C9 (amended): `setSpeed` stores the multiplier verbatim, without
clamping; the clamping to `[0.5, 5]` is performed by the AR speed-button
handlers — each press stores `min 5 (current + 0.5)` or
`max 0.5 (current - 0.5)` — so any press sequence starting from a
multiplier inside `[0.5, 5]` (e.g. the initial `1.0`) keeps it inside
`[0.5, 5]`. -/
theorem speed_clamped_by_buttons (s : PlaybackState) (m : ℚ)
    (acts : List SpeedAction)
    (hlo : 1 / 2 ≤ s.playbackSpeed) (hhi : s.playbackSpeed ≤ 5) :
    (setPlaybackSpeed m s).playbackSpeed = m ∧
    1 / 2 ≤ (applySpeedActions s acts).playbackSpeed ∧
    (applySpeedActions s acts).playbackSpeed ≤ 5 := by
  refine ⟨rfl, ?_, ?_⟩
  · exact (speed_bounds_preserved acts s hlo hhi).1
  · exact (speed_bounds_preserved acts s hlo hhi).2

/-- C9 witness: the amended theorem applied to the initial state with a
concrete press sequence. -/
theorem speed_clamped_by_buttons_witness :
    (setPlaybackSpeed 2 initialState).playbackSpeed = 2 ∧
    1 / 2 ≤ (applySpeedActions initialState
        [SpeedAction.up, SpeedAction.up, SpeedAction.down]).playbackSpeed ∧
    (applySpeedActions initialState
        [SpeedAction.up, SpeedAction.up, SpeedAction.down]).playbackSpeed ≤ 5 := by
  exact speed_clamped_by_buttons initialState 2
    [SpeedAction.up, SpeedAction.up, SpeedAction.down]
    (by norm_num [initialState]) (by norm_num [initialState])

end F1
